import Mathlib

/-!
Shallow embedding of the blog CRUD backend (`src/main.py`, `src/models.py`,
`src/database.py`).

The stored state is modelled as lists of `authors` and `posts` rows together
with the two auto-increment counters of the database (MySQL auto-increment
primary keys, starting at 1).  Each HTTP handler of `main.py` becomes a Lean
function; mutating handlers return the result together with the new store,
read-only handlers return just the result (they never write).  SQLAlchemy
queries become list operations: `query(...).filter(c).first()` is
`List.find?`, `.all()` with a filter is `List.filter`, an `UPDATE` of a row
found by primary key rewrites every row carrying that id, and `db.delete`
with the declared cascade (`models.py`: relationship cascade
"all, delete-orphan" and the foreign key `ondelete="CASCADE"`) removes the
author row and every post row whose `author_id` matches.  A commit is
atomic: each handler performs at most one, so a handler either applies its
whole effect or leaves the store untouched.
-/

/-- A row of the `authors` table (`models.py`, class `Author`). -/
structure Author where
  id : Int
  name : String
  email : String
deriving DecidableEq, Repr

/-- A row of the `posts` table (`models.py`, class `Post`). -/
structure Post where
  id : Int
  title : String
  content : String
  author_id : Int
deriving DecidableEq, Repr

/-- The persisted state: both tables plus the auto-increment counters the
database keeps for the two integer primary keys. -/
structure Store where
  authors : List Author
  posts : List Post
  nextAuthorId : Int
  nextPostId : Int
deriving DecidableEq, Repr

/-- Request body of POST/PUT `/authors` (`main.py`, class `AuthorCreate`). -/
structure AuthorCreate where
  name : String
  email : String
deriving DecidableEq, Repr

/-- Request body of POST/PUT `/posts` (`main.py`, class `PostCreate`). -/
structure PostCreate where
  title : String
  content : String
  author_id : Int
deriving DecidableEq, Repr

/-- Response of GET `/posts/id` (`main.py`, class `PostResponseDetailed`):
the post fields plus the embedded author. -/
structure PostResponseDetailed where
  id : Int
  title : String
  content : String
  author_id : Int
  author : Author
deriving DecidableEq, Repr

/-- Outcome of a handler: a 2xx payload, or an HTTP error with status code
and `detail` message (FastAPI `HTTPException`; 500 stands for an uncaught
exception surfaced by the framework). -/
inductive ApiResult (α : Type) where
  | ok (value : α)
  | err (status : Nat) (detail : String)
deriving DecidableEq, Repr

/-- POST `/authors` (`main.py`, `create_author`): reject a duplicate email
with 400, otherwise insert a row whose id is the next auto-increment value
and return it. -/
def create_author (s : Store) (author : AuthorCreate) : ApiResult Author × Store :=
  match s.authors.find? (fun a => a.email == author.email) with
  | some _ => (.err 400 "Email already registered", s)
  | none =>
    let new_author : Author := { id := s.nextAuthorId, name := author.name, email := author.email }
    (.ok new_author,
     { s with authors := s.authors ++ [new_author], nextAuthorId := s.nextAuthorId + 1 })

/-- GET `/authors` (`main.py`, `get_authors`): all author rows. -/
def get_authors (s : Store) : List Author :=
  s.authors

/-- GET `/authors/id` (`main.py`, `get_single_author`). -/
def get_single_author (s : Store) (id : Int) : ApiResult Author :=
  match s.authors.find? (fun a => a.id == id) with
  | none => .err 404 "Author not found"
  | some a => .ok a

/-- PUT `/authors/id` (`main.py`, `update_author`): 404 when the id is
absent, otherwise replace name and email wholesale.  The handler itself does
not re-check email uniqueness; the `unique=True` constraint on
`authors.email` (`models.py` line 11) is enforced by the database at commit,
so a commit that would give a second author an email already held by a
different author fails with an uncaught integrity error (HTTP 500) and the
transaction is not applied. -/
def update_author (s : Store) (id : Int) (author_update : AuthorCreate) :
    ApiResult Author × Store :=
  match s.authors.find? (fun a => a.id == id) with
  | none => (.err 404 "Author not found", s)
  | some a =>
    if s.authors.any (fun b => b.id != a.id && b.email == author_update.email) then
      (.err 500 "Internal Server Error", s)
    else
      let a2 : Author := { a with name := author_update.name, email := author_update.email }
      (.ok a2,
       { s with authors := s.authors.map (fun b => if b.id == id then a2 else b) })

/-- DELETE `/authors/id` (`main.py`, `delete_author`): 404 when the id is
absent, otherwise delete the author and, by the declared cascade
(`models.py`), every post whose `author_id` matches, in the same commit. -/
def delete_author (s : Store) (id : Int) : ApiResult String × Store :=
  match s.authors.find? (fun a => a.id == id) with
  | none => (.err 404 "Author not found", s)
  | some _ =>
    (.ok "Author and associated posts deleted",
     { s with authors := s.authors.filter (fun a => a.id != id),
              posts := s.posts.filter (fun p => p.author_id != id) })

/-- GET `/authors/id/posts` (`main.py`, `get_posts_by_author`): 404 when the
author is absent, otherwise the posts with that `author_id`. -/
def get_posts_by_author (s : Store) (id : Int) : ApiResult (List Post) :=
  match s.authors.find? (fun a => a.id == id) with
  | none => .err 404 "Author not found"
  | some _ => .ok (s.posts.filter (fun p => p.author_id == id))

/-- POST `/posts` (`main.py`, `create_post`): 400 when `author_id` names no
author, otherwise insert a row with the next auto-increment id. -/
def create_post (s : Store) (post : PostCreate) : ApiResult Post × Store :=
  match s.authors.find? (fun a => a.id == post.author_id) with
  | none => (.err 400 "Author ID does not exist", s)
  | some _ =>
    let new_post : Post :=
      { id := s.nextPostId, title := post.title, content := post.content,
        author_id := post.author_id }
    (.ok new_post,
     { s with posts := s.posts ++ [new_post], nextPostId := s.nextPostId + 1 })

/-- GET `/posts` (`main.py`, `get_posts`): the guard is Python truthiness
(`if author_id:`), which is false both for `None` and for the integer 0, so
`author_id=0` skips the filter exactly like an omitted parameter. -/
def get_posts (s : Store) (author_id : Option Int) : List Post :=
  match author_id with
  | none => s.posts
  | some aid =>
    if aid == 0 then s.posts
    else s.posts.filter (fun p => p.author_id == aid)

/-- GET `/posts/id` (`main.py`, `get_single_post`): 404 when the post is
absent; otherwise the post with its author joined in (`joinedload`).  A post
whose author row is missing cannot arise through the API, but on such a
state the `PostResponseDetailed` response validation would fail and surface
as a 500. -/
def get_single_post (s : Store) (id : Int) : ApiResult PostResponseDetailed :=
  match s.posts.find? (fun p => p.id == id) with
  | none => .err 404 "Post not found"
  | some p =>
    match s.authors.find? (fun a => a.id == p.author_id) with
    | none => .err 500 "Internal Server Error"
    | some a =>
      .ok { id := p.id, title := p.title, content := p.content,
            author_id := p.author_id, author := a }

/-- PUT `/posts/id` (`main.py`, `update_post`): 404 when the post is absent,
otherwise replace title and content wholesale.  The body's `author_id` field
is never read: the handler assigns only `post.title` and `post.content`. -/
def update_post (s : Store) (id : Int) (post_update : PostCreate) :
    ApiResult Post × Store :=
  match s.posts.find? (fun p => p.id == id) with
  | none => (.err 404 "Post not found", s)
  | some p =>
    let p2 : Post := { p with title := post_update.title, content := post_update.content }
    (.ok p2,
     { s with posts := s.posts.map (fun q => if q.id == id then p2 else q) })

/-- DELETE `/posts/id` (`main.py`, `delete_post`). -/
def delete_post (s : Store) (id : Int) : ApiResult String × Store :=
  match s.posts.find? (fun p => p.id == id) with
  | none => (.err 404 "Post not found", s)
  | some _ =>
    (.ok "Post deleted", { s with posts := s.posts.filter (fun p => p.id != id) })

/-- One mutating request (the read-only endpoints never change the store). -/
inductive Op where
  | createAuthor (body : AuthorCreate)
  | updateAuthor (id : Int) (body : AuthorCreate)
  | deleteAuthor (id : Int)
  | createPost (body : PostCreate)
  | updatePost (id : Int) (body : PostCreate)
  | deletePost (id : Int)
deriving DecidableEq, Repr

/-- The store produced by one request (the state component of the handler). -/
def apply (s : Store) : Op → Store
  | .createAuthor body => (create_author s body).2
  | .updateAuthor id body => (update_author s id body).2
  | .deleteAuthor id => (delete_author s id).2
  | .createPost body => (create_post s body).2
  | .updatePost id body => (update_post s id body).2
  | .deletePost id => (delete_post s id).2

/-- The state at startup: both tables exist and are empty
(`main.py` line 9, `create_all`), auto-increment counters at 1. -/
def initStore : Store :=
  { authors := [], posts := [], nextAuthorId := 1, nextPostId := 1 }

/-- Replay a request sequence from the initial state. -/
def run (ops : List Op) : Store :=
  ops.foldl apply initStore

/-- The stores reachable from startup through the public API. -/
inductive Reachable : Store → Prop where
  | init : Reachable initStore
  | step (s : Store) (op : Op) : Reachable s → Reachable (apply s op)

/-- The filtering the spec's words describe for GET `/posts`: with a
supplied `author_id`, exactly the posts whose `author_id` field equals that
value.  This definition follows the spec sentence, not the code; it exists
only to be compared with `get_posts`. -/
def get_posts_speced (s : Store) (author_id : Option Int) : List Post :=
  match author_id with
  | none => s.posts
  | some aid => s.posts.filter (fun p => p.author_id == aid)

/-- Replay a sequence of POST `/authors` requests, stopping at the first one
that does not succeed (test-harness composition of `create_author`). -/
def runCreateAuthorsChecked (s : Store) : List AuthorCreate → Option Store
  | [] => some s
  | b :: rest =>
    match create_author s b with
    | (.ok _, s2) => runCreateAuthorsChecked s2 rest
    | (.err _ _, _) => none

/-- A concrete request sequence: two authors, one post each. -/
def demoOps : List Op :=
  [.createAuthor ⟨"Ada", "ada@example.com"⟩,
   .createAuthor ⟨"Bob", "bob@example.com"⟩,
   .createPost ⟨"Hi", "World", 1⟩,
   .createPost ⟨"Second", "Text", 2⟩]

/-- The store reached by `demoOps`: authors Ada (id 1) and Bob (id 2),
posts 1 (by Ada) and 2 (by Bob). -/
def demoStore : Store := run demoOps

/-! ## The stored-state invariant and its preservation -/

/-- Invariant of the stored state: primary keys are pairwise distinct (they
are primary-key columns), emails are pairwise distinct (the `unique=True`
constraint of `models.py`), every post's `author_id` names an existing
author (application check on create plus the cascade on delete), and every
existing id is below the auto-increment counter. -/
structure WellFormed (s : Store) : Prop where
  authors_nodup : (s.authors.map Author.id).Nodup
  posts_nodup : (s.posts.map Post.id).Nodup
  emails_nodup : (s.authors.map Author.email).Nodup
  no_orphans : ∀ p ∈ s.posts, ∃ a ∈ s.authors, a.id = p.author_id
  authors_lt : ∀ a ∈ s.authors, a.id < s.nextAuthorId
  posts_lt : ∀ p ∈ s.posts, p.id < s.nextPostId

theorem map_update_eq {α β : Type} (l : List α) (p : α → Bool) (r : α) (f : α → β)
    (h : ∀ x ∈ l, p x = true → f r = f x) :
    (l.map (fun x => if p x then r else x)).map f = l.map f := by
  induction l with
  | nil => rfl
  | cons b t ih =>
    simp only [List.map_cons]
    by_cases hb : p b = true
    · rw [if_pos hb, h b (List.mem_cons_self b t) hb,
        ih (fun x hx hpx => h x (List.mem_cons_of_mem b hx) hpx)]
    · rw [if_neg hb, ih (fun x hx hpx => h x (List.mem_cons_of_mem b hx) hpx)]

theorem mem_map_update {α : Type} {l : List α} {p : α → Bool} {r : α} {x : α}
    (hx : x ∈ l.map (fun y => if p y then r else y)) : x = r ∨ x ∈ l := by
  rcases List.mem_map.mp hx with ⟨y, hy, hxy⟩
  by_cases hp : p y = true
  · rw [if_pos hp] at hxy
    exact Or.inl hxy.symm
  · rw [if_neg hp] at hxy
    exact Or.inr (hxy ▸ hy)

theorem emails_nodup_update (l : List Author) (id : Int) (a2 : Author)
    (hids : (l.map Author.id).Nodup)
    (hem : (l.map Author.email).Nodup)
    (hfresh : ∀ b ∈ l, b.id ≠ id → b.email ≠ a2.email) :
    ((l.map (fun b => if b.id == id then a2 else b)).map Author.email).Nodup := by
  induction l with
  | nil => simp
  | cons b t ih =>
    simp only [List.map_cons, List.nodup_cons] at hids hem ⊢
    by_cases hb : (b.id == id) = true
    · rw [if_pos hb]
      have hbid : b.id = id := by simpa using hb
      have htid : ∀ x ∈ t, x.id ≠ id := by
        intro x hx hxid
        rw [← hbid] at hxid
        exact hids.1 (List.mem_map.mpr ⟨x, hx, hxid⟩)
      have hmapid : t.map (fun b => if b.id == id then a2 else b) = t := by
        conv_rhs => rw [← List.map_id t]
        apply List.map_congr_left
        intro x hx
        rw [if_neg (by simpa using htid x hx)]
        rfl
      rw [hmapid]
      constructor
      · intro hmem
        rcases List.mem_map.mp hmem with ⟨x, hx, hxe⟩
        exact hfresh x (List.mem_cons_of_mem b hx) (htid x hx) hxe
      · exact hem.2
    · rw [if_neg hb]
      have hbid : b.id ≠ id := by simpa using hb
      constructor
      · intro hmem
        rcases List.mem_map.mp hmem with ⟨x, hx, hxe⟩
        rcases mem_map_update hx with hx2 | hx2
        · exact hfresh b (List.mem_cons_self b t) hbid (hx2 ▸ hxe).symm
        · exact hem.1 (hxe ▸ List.mem_map.mpr ⟨x, hx2, rfl⟩)
      · exact ih hids.2 hem.2
          (fun x hx hxid => hfresh x (List.mem_cons_of_mem b hx) hxid)

theorem wf_init : WellFormed initStore := by
  constructor <;> simp [initStore]

theorem wf_create_author (s : Store) (b : AuthorCreate) (hw : WellFormed s) :
    WellFormed (create_author s b).2 := by
  cases hfind : s.authors.find? (fun a => a.email == b.email) with
  | some a => simpa [create_author, hfind] using hw
  | none =>
    have hfresh : ∀ a ∈ s.authors, a.email ≠ b.email := by
      intro a ha
      simpa using List.find?_eq_none.mp hfind a ha
    simp only [create_author, hfind]
    constructor
    · simp only [List.map_append, List.map_cons, List.map_nil]
      rw [List.nodup_append]
      refine ⟨hw.authors_nodup, by simp, ?_⟩
      intro x hx hy
      simp only [List.mem_singleton] at hy
      subst hy
      rcases List.mem_map.mp hx with ⟨c, hc, hcx⟩
      exact absurd (hcx ▸ hw.authors_lt c hc) (lt_irrefl _)
    · exact hw.posts_nodup
    · simp only [List.map_append, List.map_cons, List.map_nil]
      rw [List.nodup_append]
      refine ⟨hw.emails_nodup, by simp, ?_⟩
      intro x hx hy
      simp only [List.mem_singleton] at hy
      subst hy
      rcases List.mem_map.mp hx with ⟨c, hc, hcx⟩
      exact hfresh c hc hcx
    · intro p hp
      rcases hw.no_orphans p hp with ⟨a, ha, haid⟩
      exact ⟨a, List.mem_append_left _ ha, haid⟩
    · intro a ha
      rcases List.mem_append.mp ha with ha2 | ha2
      · have := hw.authors_lt a ha2
        show a.id < s.nextAuthorId + 1
        omega
      · simp only [List.mem_singleton] at ha2
        subst ha2
        show s.nextAuthorId < s.nextAuthorId + 1
        omega
    · exact hw.posts_lt

theorem wf_update_author (s : Store) (id : Int) (b : AuthorCreate) (hw : WellFormed s) :
    WellFormed (update_author s id b).2 := by
  cases hfind : s.authors.find? (fun a => a.id == id) with
  | none => simpa [update_author, hfind] using hw
  | some a =>
    have haid : a.id = id := by simpa using List.find?_some hfind
    have hamem : a ∈ s.authors := List.mem_of_find?_eq_some hfind
    cases hany : s.authors.any (fun c => c.id != a.id && c.email == b.email) with
    | true => simpa [update_author, hfind, hany] using hw
    | false =>
      have hfresh : ∀ c ∈ s.authors, c.id ≠ id → c.email ≠ b.email := by
        intro c hc hcid
        have h2 := List.any_eq_false.mp hany c hc
        simp only [Bool.and_eq_true, bne_iff_ne, beq_iff_eq, not_and] at h2
        exact h2 (haid ▸ hcid)
      simp only [update_author, hfind, hany, Bool.false_eq_true, if_false]
      refine ⟨?_, hw.posts_nodup, ?_, ?_, ?_, hw.posts_lt⟩
      · rw [map_update_eq]
        · exact hw.authors_nodup
        · intro x hx hpx
          have hxid : x.id = id := by simpa using hpx
          simp [hxid, haid]
      · exact emails_nodup_update s.authors id _ hw.authors_nodup hw.emails_nodup
          (fun c hc hcid => by simpa using hfresh c hc hcid)
      · intro p hp
        rcases hw.no_orphans p hp with ⟨c, hc, hcid⟩
        refine ⟨if (c.id == id) = true then ⟨a.id, b.name, b.email⟩ else c,
          List.mem_map_of_mem _ hc, ?_⟩
        by_cases h2 : (c.id == id) = true
        · have hcid2 : c.id = id := by simpa using h2
          rw [if_pos h2]
          show a.id = p.author_id
          omega
        · rw [if_neg h2]
          exact hcid
      · intro x hx
        rcases mem_map_update hx with hx2 | hx2
        · subst hx2
          exact hw.authors_lt a hamem
        · exact hw.authors_lt x hx2

theorem wf_delete_author (s : Store) (id : Int) (hw : WellFormed s) :
    WellFormed (delete_author s id).2 := by
  cases hfind : s.authors.find? (fun a => a.id == id) with
  | none => simpa [delete_author, hfind] using hw
  | some a =>
    simp only [delete_author, hfind]
    refine ⟨?_, ?_, ?_, ?_, ?_, ?_⟩
    · exact List.Nodup.sublist (List.Sublist.map Author.id (List.filter_sublist s.authors))
        hw.authors_nodup
    · exact List.Nodup.sublist (List.Sublist.map Post.id (List.filter_sublist s.posts))
        hw.posts_nodup
    · exact List.Nodup.sublist (List.Sublist.map Author.email (List.filter_sublist s.authors))
        hw.emails_nodup
    · intro p hp
      rw [List.mem_filter] at hp
      rcases hw.no_orphans p hp.1 with ⟨c, hc, hcid⟩
      have h2 : c.id ≠ id := by rw [hcid]; simpa using hp.2
      exact ⟨c, List.mem_filter.mpr ⟨hc, by simpa using h2⟩, hcid⟩
    · intro c hc
      exact hw.authors_lt c (List.mem_filter.mp hc).1
    · intro p hp
      exact hw.posts_lt p (List.mem_filter.mp hp).1

theorem wf_create_post (s : Store) (b : PostCreate) (hw : WellFormed s) :
    WellFormed (create_post s b).2 := by
  cases hfind : s.authors.find? (fun a => a.id == b.author_id) with
  | none => simpa [create_post, hfind] using hw
  | some a =>
    have hamem : a ∈ s.authors := List.mem_of_find?_eq_some hfind
    have haid : a.id = b.author_id := by simpa using List.find?_some hfind
    simp only [create_post, hfind]
    refine ⟨hw.authors_nodup, ?_, hw.emails_nodup, ?_, hw.authors_lt, ?_⟩
    · simp only [List.map_append, List.map_cons, List.map_nil]
      rw [List.nodup_append]
      refine ⟨hw.posts_nodup, by simp, ?_⟩
      intro x hx hy
      simp only [List.mem_singleton] at hy
      subst hy
      rcases List.mem_map.mp hx with ⟨q, hq, hqx⟩
      exact absurd (hqx ▸ hw.posts_lt q hq) (lt_irrefl _)
    · intro p hp
      rcases List.mem_append.mp hp with hp2 | hp2
      · exact hw.no_orphans p hp2
      · simp only [List.mem_singleton] at hp2
        subst hp2
        exact ⟨a, hamem, haid⟩
    · intro p hp
      rcases List.mem_append.mp hp with hp2 | hp2
      · have := hw.posts_lt p hp2
        show p.id < s.nextPostId + 1
        omega
      · simp only [List.mem_singleton] at hp2
        subst hp2
        show s.nextPostId < s.nextPostId + 1
        omega

theorem wf_update_post (s : Store) (id : Int) (b : PostCreate) (hw : WellFormed s) :
    WellFormed (update_post s id b).2 := by
  cases hfind : s.posts.find? (fun p => p.id == id) with
  | none => simpa [update_post, hfind] using hw
  | some p =>
    have hpid : p.id = id := by simpa using List.find?_some hfind
    have hpmem : p ∈ s.posts := List.mem_of_find?_eq_some hfind
    simp only [update_post, hfind]
    refine ⟨hw.authors_nodup, ?_, hw.emails_nodup, ?_, hw.authors_lt, ?_⟩
    · rw [map_update_eq]
      · exact hw.posts_nodup
      · intro x hx hpx
        have hxid : x.id = id := by simpa using hpx
        simp [hxid, hpid]
    · intro q hq
      rcases mem_map_update hq with hq2 | hq2
      · subst hq2
        exact hw.no_orphans p hpmem
      · exact hw.no_orphans q hq2
    · intro q hq
      rcases mem_map_update hq with hq2 | hq2
      · subst hq2
        exact hw.posts_lt p hpmem
      · exact hw.posts_lt q hq2

theorem wf_delete_post (s : Store) (id : Int) (hw : WellFormed s) :
    WellFormed (delete_post s id).2 := by
  cases hfind : s.posts.find? (fun p => p.id == id) with
  | none => simpa [delete_post, hfind] using hw
  | some p =>
    simp only [delete_post, hfind]
    refine ⟨hw.authors_nodup, ?_, hw.emails_nodup, ?_, hw.authors_lt, ?_⟩
    · exact List.Nodup.sublist (List.Sublist.map Post.id (List.filter_sublist s.posts))
        hw.posts_nodup
    · intro q hq
      exact hw.no_orphans q (List.mem_filter.mp hq).1
    · intro q hq
      exact hw.posts_lt q (List.mem_filter.mp hq).1

theorem wf_apply (s : Store) (op : Op) (hw : WellFormed s) : WellFormed (apply s op) := by
  cases op with
  | createAuthor b => exact wf_create_author s b hw
  | updateAuthor id b => exact wf_update_author s id b hw
  | deleteAuthor id => exact wf_delete_author s id hw
  | createPost b => exact wf_create_post s b hw
  | updatePost id b => exact wf_update_post s id b hw
  | deletePost id => exact wf_delete_post s id hw

theorem reachable_wf {s : Store} (h : Reachable s) : WellFormed s := by
  induction h with
  | init => exact wf_init
  | step s op _ ih => exact wf_apply s op ih

theorem reachable_foldl (ops : List Op) (s : Store) (h : Reachable s) :
    Reachable (ops.foldl apply s) := by
  induction ops generalizing s with
  | nil => exact h
  | cons op rest ih => exact ih (apply s op) (Reachable.step s op h)

theorem reachable_run (ops : List Op) : Reachable (run ops) :=
  reachable_foldl ops initStore Reachable.init

/-! ## Claims -/

/-- C1: on every reachable store, deleting an existing Author removes it and
every Post whose `author_id` equals its id (one commit, hence one
transaction); no reachable store holds a Post whose `author_id` does not
name an existing Author; and looking up any of the deleted Posts afterwards
returns 404. -/
theorem delete_author_cascade (s : Store) (hr : Reachable s) :
    (∀ p ∈ s.posts, ∃ a ∈ s.authors, a.id = p.author_id) ∧
    ∀ id a, a ∈ s.authors → a.id = id →
      (∀ a2 ∈ ((delete_author s id).2).authors, a2.id ≠ id) ∧
      (∀ p ∈ ((delete_author s id).2).posts, p.author_id ≠ id) ∧
      (∀ p ∈ s.posts, p.author_id = id →
        get_single_post ((delete_author s id).2) p.id = .err 404 "Post not found") := by
  have hw := reachable_wf hr
  refine ⟨hw.no_orphans, ?_⟩
  intro id a hamem haid
  cases hf : s.authors.find? (fun c => c.id == id) with
  | none => exact absurd (beq_iff_eq.mpr haid) (List.find?_eq_none.mp hf a hamem)
  | some c =>
    simp only [delete_author, hf]
    refine ⟨?_, ?_, ?_⟩
    · intro a2 ha2
      simpa using (List.mem_filter.mp ha2).2
    · intro p hp
      simpa using (List.mem_filter.mp hp).2
    · intro p hp hpid
      have hnone : (s.posts.filter (fun q => q.author_id != id)).find?
          (fun q => q.id == p.id) = none := by
        rw [List.find?_eq_none]
        intro q hq hqmatch
        have hq2 := List.mem_filter.mp hq
        have hqid : q.id = p.id := by simpa using hqmatch
        have hqp : q = p := List.inj_on_of_nodup_map hw.posts_nodup hq2.1 hp hqid
        subst hqp
        have hne : q.author_id ≠ id := by simpa using hq2.2
        exact hne hpid
      simp [get_single_post, hnone]

/-- C1 witness: in the concrete two-author store, after deleting author 1,
looking up post 1 (which author 1 wrote) returns 404. -/
theorem delete_author_cascade_witness :
    get_single_post ((delete_author demoStore 1).2) 1 = .err 404 "Post not found" := by
  have h := (delete_author_cascade demoStore (reachable_run demoOps)).2 1
      ⟨1, "Ada", "ada@example.com"⟩ (by decide) (by decide)
  exact h.2.2 ⟨1, "Hi", "World", 1⟩ (by decide) (by decide)

/-- C2: in every reachable store no two distinct Authors share an email, and
in particular the store after any update-Author request (which the handler
does not re-validate, but the `unique=True` storage constraint does) still
has pairwise-distinct emails. -/
theorem author_email_unique (s : Store) (hr : Reachable s) :
    (∀ a ∈ s.authors, ∀ b ∈ s.authors, a ≠ b → a.email ≠ b.email) ∧
    ∀ id body, ∀ a ∈ ((update_author s id body).2).authors,
      ∀ b ∈ ((update_author s id body).2).authors, a ≠ b → a.email ≠ b.email := by
  have huniq : ∀ t : Store, WellFormed t →
      ∀ a ∈ t.authors, ∀ b ∈ t.authors, a ≠ b → a.email ≠ b.email := by
    intro t hw a ha b hb hne heq
    exact hne (List.inj_on_of_nodup_map hw.emails_nodup ha hb heq)
  refine ⟨huniq s (reachable_wf hr), ?_⟩
  intro id body
  exact huniq _ (reachable_wf (Reachable.step s (.updateAuthor id body) hr))

/-- C2 witness: the two authors of the concrete store have distinct emails. -/
theorem author_email_unique_witness :
    (⟨1, "Ada", "ada@example.com"⟩ : Author).email ≠
      (⟨2, "Bob", "bob@example.com"⟩ : Author).email :=
  (author_email_unique demoStore (reachable_run demoOps)).1
    ⟨1, "Ada", "ada@example.com"⟩ (by decide)
    ⟨2, "Bob", "bob@example.com"⟩ (by decide) (by decide)

/-- C3: creating an Author whose email is already taken yields the 400
duplicate-email error and returns the store exactly as it was. -/
theorem create_author_duplicate_email (s : Store) (b : AuthorCreate)
    (hdup : ∃ a ∈ s.authors, a.email = b.email) :
    create_author s b = (.err 400 "Email already registered", s) := by
  rcases hdup with ⟨a, ha, hae⟩
  cases hf : s.authors.find? (fun c => c.email == b.email) with
  | none => exact absurd (beq_iff_eq.mpr hae) (List.find?_eq_none.mp hf a ha)
  | some c => simp [create_author, hf]

/-- C3 witness: re-using Ada's email is rejected and the store is unchanged. -/
theorem create_author_duplicate_email_witness :
    create_author demoStore ⟨"Eve", "ada@example.com"⟩ =
      (.err 400 "Email already registered", demoStore) :=
  create_author_duplicate_email demoStore ⟨"Eve", "ada@example.com"⟩
    ⟨⟨1, "Ada", "ada@example.com"⟩, by decide, rfl⟩

/-- C4: creating a Post whose `author_id` names no Author yields the 400
unknown-author error with the store unchanged; when the Author exists, the
Post is inserted with the given title, content and `author_id` and returned
with the server-generated id. -/
theorem create_post_author_check (s : Store) (b : PostCreate) :
    ((∀ a ∈ s.authors, a.id ≠ b.author_id) →
      create_post s b = (.err 400 "Author ID does not exist", s)) ∧
    ((∃ a ∈ s.authors, a.id = b.author_id) →
      create_post s b =
        (.ok ⟨s.nextPostId, b.title, b.content, b.author_id⟩,
         { s with posts := s.posts ++ [⟨s.nextPostId, b.title, b.content, b.author_id⟩],
                  nextPostId := s.nextPostId + 1 })) := by
  constructor
  · intro habs
    cases hf : s.authors.find? (fun a => a.id == b.author_id) with
    | none => simp [create_post, hf]
    | some a =>
      have hmem := List.mem_of_find?_eq_some hf
      exact absurd (by simpa using List.find?_some hf) (habs a hmem)
  · rintro ⟨a, ha, haid⟩
    cases hf : s.authors.find? (fun c => c.id == b.author_id) with
    | none => exact absurd (beq_iff_eq.mpr haid) (List.find?_eq_none.mp hf a ha)
    | some c => simp [create_post, hf]

/-- C4 witness: author id 99 does not exist, so creation fails and the store
is unchanged; author id 2 exists, so creation returns the new post with id 3. -/
theorem create_post_author_check_witness :
    create_post demoStore ⟨"T", "C", 99⟩ = (.err 400 "Author ID does not exist", demoStore) ∧
    (create_post demoStore ⟨"T", "C", 2⟩).1 = .ok ⟨3, "T", "C", 2⟩ := by
  constructor
  · exact (create_post_author_check demoStore ⟨"T", "C", 99⟩).1 (by decide)
  · rw [(create_post_author_check demoStore ⟨"T", "C", 2⟩).2
      ⟨⟨2, "Bob", "bob@example.com"⟩, by decide, rfl⟩]
    decide

/-- C5 as stated is false: in the reachable store `demoStore`, supplying
`author_id = 0` returns all posts (the truthiness check skips the filter),
not the set of posts whose `author_id` field equals 0, which is empty. -/
theorem get_posts_filter_zero_counterexample :
    Reachable demoStore ∧
    (⟨1, "Hi", "World", 1⟩ : Post) ∈ get_posts demoStore (some 0) ∧
    (⟨1, "Hi", "World", 1⟩ : Post).author_id ≠ 0 ∧
    get_posts demoStore (some 0) ≠ get_posts_speced demoStore (some 0) :=
  ⟨reachable_run demoOps, by decide, by decide, by decide⟩

/-- C5 amended: for every supplied nonzero `author_id`, list-Posts returns
exactly the posts whose `author_id` field equals that value; with the
parameter omitted (and likewise with the value 0) it returns all posts. -/
theorem get_posts_filter (s : Store) (aid : Int) (hne : aid ≠ 0) :
    get_posts s (some aid) = s.posts.filter (fun p => p.author_id == aid) ∧
    (∀ p, p ∈ get_posts s (some aid) ↔ p ∈ s.posts ∧ p.author_id = aid) ∧
    get_posts s none = s.posts := by
  have h0 : (aid == 0) = false := by simpa using hne
  refine ⟨by simp [get_posts, h0], ?_, rfl⟩
  intro p
  simp [get_posts, h0, List.mem_filter]

/-- C5 amended witness: filtering by author 1 returns exactly Ada's post. -/
theorem get_posts_filter_witness :
    get_posts demoStore (some 1) = [⟨1, "Hi", "World", 1⟩] := by
  rw [(get_posts_filter demoStore 1 (by decide)).1]
  decide

/-- C6: on a reachable store, fetching an existing Post by id returns it
with an embedded Author equal to the result of fetching the Post's
`author_id` directly. -/
theorem get_single_post_embeds_author (s : Store) (hr : Reachable s) (id : Int) (p : Post)
    (hfind : s.posts.find? (fun q => q.id == id) = some p) :
    ∃ a, get_single_post s id = .ok ⟨p.id, p.title, p.content, p.author_id, a⟩ ∧
      get_single_author s p.author_id = .ok a := by
  have hw := reachable_wf hr
  have hpmem := List.mem_of_find?_eq_some hfind
  rcases hw.no_orphans p hpmem with ⟨c, hc, hcid⟩
  cases hfa : s.authors.find? (fun a => a.id == p.author_id) with
  | none => exact absurd (beq_iff_eq.mpr hcid) (List.find?_eq_none.mp hfa c hc)
  | some a =>
    exact ⟨a, by simp [get_single_post, hfind, hfa], by simp [get_single_author, hfa]⟩

/-- C6 witness: post 1 comes back with Ada embedded, matching the direct
author lookup. -/
theorem get_single_post_embeds_author_witness :
    get_single_post demoStore 1 =
      .ok ⟨1, "Hi", "World", 1, ⟨1, "Ada", "ada@example.com"⟩⟩ := by
  rcases get_single_post_embeds_author demoStore (reachable_run demoOps) 1
      ⟨1, "Hi", "World", 1⟩ (by decide) with ⟨a, h1, h2⟩
  have h3 : get_single_author demoStore 1 = .ok a := h2
  have he : get_single_author demoStore 1 = .ok ⟨1, "Ada", "ada@example.com"⟩ := by decide
  rw [he] at h3
  injection h3 with h4
  rw [h1, ← h4]

/-- C7: updating an existing Post replaces its title and content with the
body's values, keeps its id and `author_id` (the body's `author_id` is
ignored: the same request with any other `author_id` gives the identical
outcome), leaves every other Post in place, and leaves the authors table
untouched. -/
theorem update_post_immutable_author (s : Store) (id : Int) (b : PostCreate) (p : Post)
    (hfind : s.posts.find? (fun q => q.id == id) = some p) :
    update_post s id b =
      (.ok ⟨p.id, b.title, b.content, p.author_id⟩,
       { s with posts := s.posts.map (fun q =>
          if q.id == id then ⟨p.id, b.title, b.content, p.author_id⟩ else q) }) ∧
    ((update_post s id b).2).authors = s.authors ∧
    (∀ q ∈ s.posts, q.id ≠ id → q ∈ ((update_post s id b).2).posts) ∧
    (∀ aid2, update_post s id ⟨b.title, b.content, aid2⟩ = update_post s id b) := by
  refine ⟨by simp [update_post, hfind], by simp [update_post, hfind], ?_, ?_⟩
  · intro q hq hqid
    simp only [update_post, hfind]
    exact List.mem_map.mpr ⟨q, hq, by rw [if_neg (by simpa using hqid)]⟩
  · intro aid2
    simp [update_post, hfind]

/-- C7 witness: updating post 1 with a body carrying `author_id = 2` changes
only title and content; the post keeps `author_id = 1` and post 2 and the
authors are untouched. -/
theorem update_post_immutable_author_witness :
    update_post demoStore 1 ⟨"New", "Body", 2⟩ =
      (.ok ⟨1, "New", "Body", 1⟩,
       { demoStore with posts := [⟨1, "New", "Body", 1⟩, ⟨2, "Second", "Text", 2⟩] }) := by
  rw [(update_post_immutable_author demoStore 1 ⟨"New", "Body", 2⟩
      ⟨1, "Hi", "World", 1⟩ (by decide)).1]
  decide

/-- C8: each of get-Author, update-Author, delete-Author,
list-Posts-by-author, get-Post, update-Post and delete-Post returns 404
exactly when no entity with the given id exists, and a 404 outcome never
changes the store (the read-only handlers never write; for the mutating
ones the returned store is the input store). -/
theorem not_found_iff_absent (s : Store) (id : Int) (ab : AuthorCreate) (pb : PostCreate) :
    (get_single_author s id = .err 404 "Author not found" ↔ ∀ a ∈ s.authors, a.id ≠ id) ∧
    ((update_author s id ab).1 = .err 404 "Author not found" ↔ ∀ a ∈ s.authors, a.id ≠ id) ∧
    ((update_author s id ab).1 = .err 404 "Author not found" → (update_author s id ab).2 = s) ∧
    ((delete_author s id).1 = .err 404 "Author not found" ↔ ∀ a ∈ s.authors, a.id ≠ id) ∧
    ((delete_author s id).1 = .err 404 "Author not found" → (delete_author s id).2 = s) ∧
    (get_posts_by_author s id = .err 404 "Author not found" ↔ ∀ a ∈ s.authors, a.id ≠ id) ∧
    (get_single_post s id = .err 404 "Post not found" ↔ ∀ p ∈ s.posts, p.id ≠ id) ∧
    ((update_post s id pb).1 = .err 404 "Post not found" ↔ ∀ p ∈ s.posts, p.id ≠ id) ∧
    ((update_post s id pb).1 = .err 404 "Post not found" → (update_post s id pb).2 = s) ∧
    ((delete_post s id).1 = .err 404 "Post not found" ↔ ∀ p ∈ s.posts, p.id ≠ id) ∧
    ((delete_post s id).1 = .err 404 "Post not found" → (delete_post s id).2 = s) := by
  have hAiff : s.authors.find? (fun a => a.id == id) = none ↔ (∀ a ∈ s.authors, a.id ≠ id) := by
    rw [List.find?_eq_none]
    simp
  have hPiff : s.posts.find? (fun p => p.id == id) = none ↔ (∀ p ∈ s.posts, p.id ≠ id) := by
    rw [List.find?_eq_none]
    simp
  refine ⟨?_, ?_, ?_, ?_, ?_, ?_, ?_, ?_, ?_, ?_, ?_⟩
  · rw [← hAiff]
    cases hfa : s.authors.find? (fun a => a.id == id) with
    | none => simp [get_single_author, hfa]
    | some a => simp [get_single_author, hfa]
  · rw [← hAiff]
    cases hfa : s.authors.find? (fun a => a.id == id) with
    | none => simp [update_author, hfa]
    | some a =>
      cases hany : s.authors.any (fun c => c.id != a.id && c.email == ab.email) <;>
        simp [update_author, hfa, hany]
  · intro h
    cases hfa : s.authors.find? (fun a => a.id == id) with
    | none => simp [update_author, hfa]
    | some a =>
      cases hany : s.authors.any (fun c => c.id != a.id && c.email == ab.email) <;>
        simp [update_author, hfa, hany] at h
  · rw [← hAiff]
    cases hfa : s.authors.find? (fun a => a.id == id) with
    | none => simp [delete_author, hfa]
    | some a => simp [delete_author, hfa]
  · intro h
    cases hfa : s.authors.find? (fun a => a.id == id) with
    | none => simp [delete_author, hfa]
    | some a => simp [delete_author, hfa] at h
  · rw [← hAiff]
    cases hfa : s.authors.find? (fun a => a.id == id) with
    | none => simp [get_posts_by_author, hfa]
    | some a => simp [get_posts_by_author, hfa]
  · rw [← hPiff]
    cases hfp : s.posts.find? (fun p => p.id == id) with
    | none => simp [get_single_post, hfp]
    | some p =>
      cases hfa : s.authors.find? (fun a => a.id == p.author_id) with
      | none => simp [get_single_post, hfp, hfa]
      | some a => simp [get_single_post, hfp, hfa]
  · rw [← hPiff]
    cases hfp : s.posts.find? (fun p => p.id == id) with
    | none => simp [update_post, hfp]
    | some p => simp [update_post, hfp]
  · intro h
    cases hfp : s.posts.find? (fun p => p.id == id) with
    | none => simp [update_post, hfp]
    | some p => simp [update_post, hfp] at h
  · rw [← hPiff]
    cases hfp : s.posts.find? (fun p => p.id == id) with
    | none => simp [delete_post, hfp]
    | some p => simp [delete_post, hfp]
  · intro h
    cases hfp : s.posts.find? (fun p => p.id == id) with
    | none => simp [delete_post, hfp]
    | some p => simp [delete_post, hfp] at h

/-- C8 witness: id 99 exists nowhere in the concrete store, so the author
lookup 404s and the (404-ing) author delete leaves the store unchanged. -/
theorem not_found_iff_absent_witness :
    get_single_author demoStore 99 = .err 404 "Author not found" ∧
    (delete_author demoStore 99).2 = demoStore := by
  have h := not_found_iff_absent demoStore 99 ⟨"N", "n@example.com"⟩ ⟨"T", "C", 1⟩
  exact ⟨h.1.mpr (by decide), h.2.2.2.2.1 (h.2.2.2.1.mpr (by decide))⟩

theorem create_authors_all_listed_from (bodies : List AuthorCreate) :
    ∀ s : Store, (bodies.map AuthorCreate.email).Nodup →
    (∀ b ∈ bodies, ∀ a ∈ s.authors, a.email ≠ b.email) →
    ∃ s2, runCreateAuthorsChecked s bodies = some s2 ∧
      (∀ a ∈ s.authors, a ∈ s2.authors) ∧
      (∀ b ∈ bodies, ∃ a ∈ get_authors s2, a.name = b.name ∧ a.email = b.email) := by
  induction bodies with
  | nil =>
    intro s _ _
    exact ⟨s, rfl, fun a ha => ha, by simp⟩
  | cons b rest ih =>
    intro s hnodup hfresh
    simp only [List.map_cons, List.nodup_cons] at hnodup
    have hf : s.authors.find? (fun a => a.email == b.email) = none := by
      rw [List.find?_eq_none]
      intro a ha
      simpa using hfresh b (List.mem_cons_self b rest) a ha
    have hstep : create_author s b =
        (.ok ⟨s.nextAuthorId, b.name, b.email⟩,
         { s with authors := s.authors ++ [⟨s.nextAuthorId, b.name, b.email⟩],
                  nextAuthorId := s.nextAuthorId + 1 }) := by
      simp [create_author, hf]
    have hfresh2 : ∀ b2 ∈ rest,
        ∀ a ∈ (s.authors ++ [(⟨s.nextAuthorId, b.name, b.email⟩ : Author)]), a.email ≠ b2.email := by
      intro b2 hb2 a ha
      rcases List.mem_append.mp ha with ha2 | ha2
      · exact hfresh b2 (List.mem_cons_of_mem b hb2) a ha2
      · simp only [List.mem_singleton] at ha2
        subst ha2
        intro hcontra
        exact hnodup.1 (List.mem_map.mpr ⟨b2, hb2, hcontra.symm⟩)
    obtain ⟨s2, hrun, hmono, hall⟩ :=
      ih { s with authors := s.authors ++ [⟨s.nextAuthorId, b.name, b.email⟩],
                  nextAuthorId := s.nextAuthorId + 1 } hnodup.2 hfresh2
    refine ⟨s2, ?_, ?_, ?_⟩
    · simp only [runCreateAuthorsChecked, hstep]
      exact hrun
    · intro a ha
      exact hmono a (List.mem_append_left _ ha)
    · intro b2 hb2
      rcases List.mem_cons.mp hb2 with hb3 | hb3
      · subst hb3
        exact ⟨⟨s.nextAuthorId, b2.name, b2.email⟩,
          hmono _ (List.mem_append_right _ (List.mem_singleton.mpr rfl)), rfl, rfl⟩
      · exact hall b2 hb3

/-- C9: starting from the empty store, any sequence of author creations with
pairwise-distinct emails runs to completion with every request succeeding
(the checked replay reaches the end), and the final list of Authors
includes an entry for every request. -/
theorem create_authors_distinct_emails_all_listed (bodies : List AuthorCreate)
    (hnodup : (bodies.map AuthorCreate.email).Nodup) :
    ∃ s2, runCreateAuthorsChecked initStore bodies = some s2 ∧
      ∀ b ∈ bodies, ∃ a ∈ get_authors s2, a.name = b.name ∧ a.email = b.email := by
  obtain ⟨s2, h1, _, h3⟩ :=
    create_authors_all_listed_from bodies initStore hnodup (by simp [initStore])
  exact ⟨s2, h1, h3⟩

/-- C9 witness: two creations with distinct emails both succeed. -/
theorem create_authors_distinct_emails_all_listed_witness :
    (runCreateAuthorsChecked initStore
      [⟨"Ada", "ada@example.com"⟩, ⟨"Bob", "bob@example.com"⟩]).isSome = true := by
  obtain ⟨s2, h1, _⟩ := create_authors_distinct_emails_all_listed
    [⟨"Ada", "ada@example.com"⟩, ⟨"Bob", "bob@example.com"⟩] (by decide)
  rw [h1]
  rfl

/-- C10: supplying `author_id = 0` to list-Posts is handled identically to
omitting the parameter — the truthiness check skips the filter and all
posts are returned. -/
theorem get_posts_zero_same_as_none (s : Store) :
    get_posts s (some 0) = get_posts s none ∧ get_posts s none = s.posts :=
  ⟨by simp [get_posts], rfl⟩
